import Mathlib

/-!
# Verification of the send-file connector (`src/sendConnector.c`)

A shallow embedding of the outbound transmission pipeline of the HTTP
engine's send-file connector, together with theorems settling the frozen
claims about it.

Modelling conventions:
* In-memory buffers (`packet->prefix`, `packet->content`, the scatter-gather
  entries `q->iovec[i]`) are represented as `List Nat` values holding the
  bytes the pointer+length pair designates; advancing a buffer start pointer
  (`mprAdjustBufStart`, `iovec[i].start += n; iovec[i].len -= n`) is
  `List.drop`.  A drained buffer (`packet->prefix = 0`) and a null buffer are
  both the empty list.
* The open file is an oracle `file : Nat → Nat` giving the byte stored at
  each offset; a file-backed extent is described, as in the source, by its
  remaining size `esize` and offset `epos`.
* The `iovec` array is a total function `Nat → List Nat` paired with the
  live-entry count `ioIndex`; array stores are pointwise function updates.
* Machine integers (`MprOff`, `ssize`) are modelled as `Nat`; every
  subtraction performed by the source occurs after the source's own
  `min`/comparison guards, so no wrap-around arithmetic is involved.
* External collaborators that live outside this file are modelled as events
  handed to an observability trace (`httpError`, `httpLimitError`,
  `httpDisconnect`, `httpTrace`) or by their documented contract
  (`httpDiscardQueueData`, `httpWriteHeaders`, `mprSendFileToSocket`).
-/

/-! ## Constants (platform error codes and engine limits) -/

/-- Capacity `ME_MAX_IOVEC` of of the scatter-gather array. -/
def ME_MAX_IOVEC : Nat := 16

/-- Sentinel body-size limit `HTTP_UNLIMITED` (MAXINT64). -/
def HTTP_UNLIMITED : Nat := 2 ^ 63 - 1

/-- Error code `EAGAIN` (macOS value; the project ships a macOS build header). -/
def EAGAIN : Nat := 35

/-- Error code `EWOULDBLOCK` (same value as `EAGAIN` on this platform). -/
def EWOULDBLOCK : Nat := 35

/-- Error code `EPIPE`. -/
def EPIPE : Nat := 32

/-- Error code `ECONNRESET`. -/
def ECONNRESET : Nat := 54

/-- Error code `ECONNABORTED`. -/
def ECONNABORTED : Nat := 53

/-- Error code `ENOTCONN`. -/
def ENOTCONN : Nat := 57

/-! ## Data model -/

/-- One `HttpPacket` of the outgoing queue.  `pfx` models `packet->prefix`
(framing bytes), `content` models `packet->content`, `esize`/`epos` model the
virtual file extent of a file-backed data packet, `isEnd` models the
`HTTP_PACKET_END` flag and `isHeader` the `HTTP_PACKET_HEADER` flag. -/
structure HttpPacket where
  pfx : List Nat
  content : List Nat
  esize : Nat
  epos : Nat
  isEnd : Bool
  isHeader : Bool
deriving DecidableEq, Repr

/-- The connector's queue `q`: the packet list hanging off `q->first`, the
materialized byte counter `q->count`, and the scatter-gather vector state
`q->iovec / q->ioIndex / q->ioCount / q->ioFile / q->ioPos`. -/
structure HttpQueue where
  packets : List HttpPacket
  count : Nat
  iovec : Nat → List Nat
  ioIndex : Nat
  ioCount : Nat
  ioFile : Bool
  ioPos : Nat

/-- The transmission context `tx` (the fields this connector touches). -/
structure HttpTx where
  bytesWritten : Nat
  finalizedConnector : Bool
  writeBlocked : Bool
  flagsNoBody : Bool
deriving DecidableEq, Repr

/-- The connection: its transmission, its queue, the configured
`conn->limits->txBodySize`, and the byte content of the open file. -/
structure HttpConn where
  tx : HttpTx
  q : HttpQueue
  txBodySize : Nat
  file : Nat → Nat

/-- Result of one `mprSendFileToSocket` call: a non-negative byte count
actually transmitted (`wr`), or a negative return whose `mprGetError()`
code is `errCode` (`er`). -/
inductive SendResult where
  | wr (written : Nat)
  | er (errCode : Nat)
deriving DecidableEq, Repr

/-- Observable effects of a drain call: calls made to the external
collaborators, in program order.  `transportCall` records what was handed to
`mprSendFileToSocket` (the vector bytes, file offset, file byte count,
requested total `q->ioCount`) together with the transport's response. -/
inductive Event where
  | limitError
  | commsError (errCode : Nat)
  | disconnect
  | finalizeConnector
  | traceError (errCode : Nat)
  | discardData
  | transportCall (vecBytes : List Nat) (pos : Nat) (fileCnt : Nat) (req : Nat)
      (res : SendResult)
deriving DecidableEq, Repr

/-! ## Queue primitives -/

/-- Model of `httpGetPacket(q)`: unlink and discard the front packet.  The connector
only calls it on a packet it has fully drained (content empty), so the
`q->count` adjustment performed by the engine is zero here. -/
def httpGetPacket (q : HttpQueue) : HttpQueue :=
  { q with packets := q.packets.tail }

/-- Modelled from the spec: `httpDiscardQueueData(q, 1)` is defined outside
this repository; spec 4.2 step 2 says a no-body transmission "discards all
queued content bytes without sending (still advances through the End
marker)".  Data packets are dropped, `End` markers retained, and the
materialized byte counter cleared. -/
def httpDiscardQueueData (q : HttpQueue) : HttpQueue :=
  { q with packets := q.packets.filter (fun p => p.isEnd), count := 0 }

/-! ## Vector builder (`buildSendVec` and helpers) -/

/-- Model of `addToSendVector(q, ptr, bytes)`: append one entry to the io vector. -/
def addToSendVector (q : HttpQueue) (entry : List Nat) : HttpQueue :=
  { q with
    iovec := fun k => if k = q.ioIndex then entry else q.iovec k,
    ioCount := q.ioCount + entry.length,
    ioIndex := q.ioIndex + 1 }

/-- Model of `addPacketForSend(q, packet)`: add a packet to the io vector — its
`prefix` bytes as one entry, then either its virtual file extent (counted in
`q->ioCount` and flagged in `q->ioFile`, with no memory entry) or its
`content` bytes as one entry.  (`httpTraceBody` is pure observability and
is not modelled.) -/
def addPacketForSend (q : HttpQueue) (packet : HttpPacket) : HttpQueue :=
  let q1 := if packet.pfx ≠ [] then addToSendVector q packet.pfx else q
  if packet.esize > 0 then
    -- assert(q->ioFile == 0); q->ioFile = 1; q->ioCount += packet->esize
    { q1 with ioFile := true, ioCount := q1.ioCount + packet.esize }
  else if packet.content.length > 0 then
    addToSendVector q1 packet.content
  else q1

/-- The scan loop of `buildSendVec`: walk the packets accumulating vector
entries, stopping at the `End` packet, at a full vector, or once a file
entry has been added.  Returns the updated vector state and the remaining
packet list (empty packets are spliced out via `prev->next = packet->next`;
when `prev == packet` — possible only for the very first packet — that
splice is a self-assignment and removes nothing, which `isFirst` tracks).
`httpWriteHeaders` is the external header-serialization collaborator
(spec 6); header packets arrive with their bytes already materialized. -/
def buildLoop (q : HttpQueue) (isFirst : Bool) (packets : List HttpPacket) :
    HttpQueue × List HttpPacket :=
  match packets with
  | [] => (q, [])
  | packet :: rest =>
    if packet.isEnd then (q, packet :: rest)
    else if q.ioFile || ME_MAX_IOVEC - 2 ≤ q.ioIndex then
      -- only one file entry allowed
      (q, packet :: rest)
    else if packet.pfx ≠ [] || packet.esize ≠ 0 || packet.content.length > 0 then
      let q1 := addPacketForSend q packet
      let r := buildLoop q1 false rest
      (r.1, packet :: r.2)
    else if isFirst then
      -- prev == packet: the splice is a self-assignment, the packet stays
      let r := buildLoop q false rest
      (r.1, packet :: r.2)
    else
      buildLoop q false rest

/-- Model of `buildSendVec(q)`: build the IO vector from the queued packets
(`assert(q->ioIndex == 0)` at entry; `q->ioCount = 0; q->ioFile = 0`). -/
def buildSendVec (q : HttpQueue) : HttpQueue :=
  let q0 := { q with ioCount := 0, ioFile := false }
  let r := buildLoop q0 true q.packets
  { r.1 with packets := r.2 }

/-! ## Packet-level accounting (`freeSendPackets`) -/

/-- The loop of `freeSendPackets`, over the packet list, the materialized
counter `q->count` and the remaining unaccounted `bytes`.  Per front packet
(stopping at `End` or when `bytes == 0`): drain the prefix, then the file
extent (`packet->esize -= len; packet->epos += len`), else the content
(also `q->count -= len`); a packet whose `esize` and content are exhausted
is consumed (`httpGetPacket`), otherwise the loop breaks. -/
def freeLoop (packets : List HttpPacket) (count bytes : Nat) :
    List HttpPacket × Nat × Nat :=
  match packets with
  | [] => ([], count, bytes)
  | packet :: rest =>
    if packet.isEnd || bytes == 0 then (packet :: rest, count, bytes)
    else
      let len1 := min packet.pfx.length bytes
      let p1 := { packet with pfx := packet.pfx.drop len1 }
      let b1 := bytes - len1
      let r :=
        if p1.esize ≠ 0 then
          let len := min p1.esize b1
          ({ p1 with esize := p1.esize - len, epos := p1.epos + len },
            b1 - len, count)
        else if p1.content.length > 0 then
          let len := min p1.content.length b1
          ({ p1 with content := p1.content.drop len }, b1 - len, count - len)
        else (p1, b1, count)
      if r.1.esize == 0 && r.1.content.length == 0 then
        -- done with this packet - consume it (assert it is not End)
        freeLoop rest r.2.2 r.2.1
      else (r.1 :: rest, r.2.2, r.2.1)

/-- Model of `freeSendPackets(q, bytes)`: account `bytes` transmitted bytes against
the front of the queue.  Returns the updated queue and the final value of
the local `bytes` (the source asserts it is `0` on exit). -/
def freeSendPackets (q : HttpQueue) (bytes : Nat) : HttpQueue × Nat :=
  let r := freeLoop q.packets q.count bytes
  ({ q with packets := r.1, count := r.2.1 }, r.2.2)

/-! ## Vector compaction (`adjustSendVec` and its loops) -/

/-- The inner copy loop of `adjustSendVec`, exactly as written in the
source: `for (j = i + 1; i < q->ioIndex; ) { iovec[j++] = iovec[i++]; }`.
Returns the updated array and the final value of `i` (the source reuses the
outer loop's `i` as the copy source index).  `fuel` only bounds the trip
count; callers pass at least `ioIndex - i + 1`, which the loop never
exhausts (each step increments `i` toward `ioIndex`). -/
def shiftLoop : Nat → (Nat → List Nat) → Nat → Nat → Nat →
    (Nat → List Nat) × Nat
  | 0, iovec, _, i, _ => (iovec, i)
  | fuel + 1, iovec, j, i, ioIndex =>
    if i < ioIndex then
      shiftLoop fuel (fun k => if k = j then iovec i else iovec k)
        (j + 1) (i + 1) ioIndex
    else (iovec, i)

/-- The outer loop of `adjustSendVec` over the vector entries.  State is
`(iovec, ioIndex, written, ioCount)`; the `Bool` result records whether the
loop performed the source's early `return` (partial consumption of entry
`i`: advance its start, shrink its length, return).  A fully consumed entry
subtracts its length from `written` and `q->ioCount`, runs the copy loop,
then `q->ioIndex--; i--;` followed by the `for` increment `i++`.  `fuel`
only bounds the trip count; callers pass `ioIndex + 1`, which the loop
never exhausts (after one full iteration `i` lands at the old `ioIndex`,
past the decremented bound, so the loop exits). -/
def adjustLoop : Nat → (Nat → List Nat) → Nat → Nat → Nat → Nat →
    (Nat → List Nat) × Nat × Nat × Nat × Bool
  | 0, iovec, ioIndex, _, written, ioCount =>
    (iovec, ioIndex, written, ioCount, false)
  | fuel + 1, iovec, ioIndex, i, written, ioCount =>
    if i < ioIndex then
      let len := (iovec i).length
      if written < len then
        ((fun k => if k = i then (iovec i).drop written else iovec k),
          ioIndex, written, ioCount, true)
      else
        let written1 := written - len
        let ioCount1 := ioCount - len
        let s := shiftLoop (ioIndex - i + 1) iovec (i + 1) i ioIndex
        adjustLoop fuel s.1 (ioIndex - 1) (s.2 - 1 + 1) written1 ioCount1
    else (iovec, ioIndex, written, ioCount, false)

/-- Model of `adjustSendVec(q, written)`: clear transmitted entries from the IO
vector.  After the entry loop, any remaining `written` is attributed to the
file (`q->ioPos += written` when `q->ioFile`), and the vector is reset
(`q->ioIndex = q->ioCount = q->ioFile = 0`); the early `return` inside the
loop skips the reset. -/
def adjustSendVec (q : HttpQueue) (written : Nat) : HttpQueue :=
  let r := adjustLoop (q.ioIndex + 1) q.iovec q.ioIndex 0 written q.ioCount
  if r.2.2.2.2 then
    { q with iovec := r.1, ioIndex := r.2.1, ioCount := r.2.2.2.1 }
  else
    let q1 := { q with iovec := r.1, ioIndex := r.2.1, ioCount := r.2.2.2.1 }
    let q2 :=
      if r.2.2.1 > 0 && q1.ioFile then { q1 with ioPos := q1.ioPos + r.2.2.1 }
      else q1
    { q2 with ioIndex := 0, ioCount := 0, ioFile := false }

/-! ## The drain engine (`httpSendOutgoingService`) -/

/-- Bytes currently designated by the live vector entries, in order. -/
def gatherVec (q : HttpQueue) : List Nat :=
  ((List.range q.ioIndex).map q.iovec).flatten

/-- The `cnt` file bytes starting at offset `pos`. -/
def fileSpan (file : Nat → Nat) (pos cnt : Nat) : List Nat :=
  (List.range cnt).map (fun k => file (pos + k))

/-- Lines 143–146 of the source: after the attempt, if the front packet is
the `End` marker, finalize the connector and remove it. -/
def endCheck (c : HttpConn) (evs : List Event) : HttpConn × List Event :=
  match c.q.packets with
  | p :: _ =>
    if p.isEnd then
      ({ c with tx := { c.tx with finalizedConnector := true },
                q := httpGetPacket c.q },
        evs ++ [Event.finalizeConnector])
    else (c, evs)
  | [] => (c, evs)

/-- Lines 112–116 of the source: `tx->writeBlocked = 0`, then
`if (q->ioIndex == 0) buildSendVec(q)`. -/
def attemptConn (c : HttpConn) : HttpConn :=
  let c1 := { c with tx := { c.tx with writeBlocked := false } }
  if c1.q.ioIndex = 0 then { c1 with q := buildSendVec c1.q } else c1

/-- The record of one `mprSendFileToSocket` call made from the state `c`:
vector bytes, `q->ioPos`, the file byte count (`q->ioCount` beyond the
vector bytes when `q->ioFile` is set), the requested total `q->ioCount`,
and the transport's response. -/
def transportEvent (c : HttpConn) (res : SendResult) : Event :=
  Event.transportCall (gatherVec c.q) c.q.ioPos
    (if c.q.ioFile then c.q.ioCount - (gatherVec c.q).length else 0)
    c.q.ioCount res

/-- Lines 112–146 of `httpSendOutgoingService`: reset `writeBlocked`,
rebuild the vector if empty, perform the one transport call (recorded as a
`transportCall` event), then branch on the result: would-block sets
`writeBlocked`; any other error reports or disconnects and finalizes; a
positive count is accounted by `freeSendPackets` then `adjustSendVec`;
finally the `End`-front check. -/
def serviceAttempt (c : HttpConn) (res : SendResult) (evs : List Event) :
    HttpConn × List Event :=
  let c2 := attemptConn c
  let evs1 := evs ++ [transportEvent c2 res]
  match res with
  | SendResult.er errCode =>
    let r :=
      if errCode = EAGAIN ∨ errCode = EWOULDBLOCK then
        -- socket full, wait for an I/O event
        ({ c2 with tx := { c2.tx with writeBlocked := true } }, evs1)
      else
        let evs2 :=
          if errCode ≠ EPIPE ∧ errCode ≠ ECONNRESET ∧ errCode ≠ ECONNABORTED ∧
              errCode ≠ ENOTCONN then
            evs1 ++ [Event.commsError errCode]
          else
            evs1 ++ [Event.disconnect]
        ({ c2 with tx := { c2.tx with finalizedConnector := true } },
          evs2 ++ [Event.finalizeConnector])
    endCheck r.1 (r.2 ++ [Event.traceError errCode])
  | SendResult.wr written =>
    if written > 0 then
      let c3 := { c2 with tx :=
        { c2.tx with bytesWritten := c2.tx.bytesWritten + written } }
      let c4 := { c3 with q := (freeSendPackets c3.q written).1 }
      let c5 := { c4 with q := adjustSendVec c4.q written }
      endCheck c5 evs1
    else endCheck c2 evs1

/-- Model of `httpSendOutgoingService(q)`: one drain call.  The transport's response
for this call is supplied by the oracle `res`; the returned event list
records, in order, the externally observable actions of the call.
(`conn->lastActivity = conn->http->now` is wall-clock bookkeeping and is
not modelled.) -/
def httpSendOutgoingService (c : HttpConn) (res : SendResult) :
    HttpConn × List Event :=
  if c.tx.finalizedConnector then (c, [])
  else
    let s :=
      if c.tx.flagsNoBody then
        ({ c with q := httpDiscardQueueData c.q }, [Event.discardData])
      else (c, ([] : List Event))
    let c1 := s.1
    if c1.tx.bytesWritten + c1.q.ioCount > c1.txBodySize ∧
        c1.txBodySize < HTTP_UNLIMITED then
      let evs := s.2 ++ [Event.limitError]
      if c1.tx.bytesWritten ≠ 0 then
        ({ c1 with tx := { c1.tx with finalizedConnector := true } },
          evs ++ [Event.finalizeConnector])
      else
        serviceAttempt c1 res evs
    else
      serviceAttempt c1 res s.2

/-- Drive the connector through a sequence of transport responses, one
drain call per response, concatenating the emitted events. -/
def runService (c : HttpConn) (results : List SendResult) :
    HttpConn × List Event :=
  match results with
  | [] => (c, [])
  | r :: rs =>
    let s := httpSendOutgoingService c r
    let t := runService s.1 rs
    (t.1, s.2 ++ t.2)

/-! ## Observation functions used by the theorems -/

/-- The bytes a recorded transport call actually delivered: the transport
consumes the vector bytes first, then file bytes from the recorded offset,
and accepts the first `written` of them. -/
def eventSentBytes (file : Nat → Nat) : Event → List Nat
  | Event.transportCall vecBytes pos fileCnt _ res =>
    match res with
    | SendResult.wr w => (vecBytes ++ fileSpan file pos fileCnt).take w
    | SendResult.er _ => []
  | _ => []

/-- Concatenation, in call order, of all bytes handed to the transport. -/
def deliveredBytes (file : Nat → Nat) (evs : List Event) : List Nat :=
  (evs.map (eventSentBytes file)).flatten

/-- The byte stream one packet still owes the wire: prefix, then content,
then its file-extent bytes. -/
def packetStream (file : Nat → Nat) (p : HttpPacket) : List Nat :=
  p.pfx ++ p.content ++ fileSpan file p.epos p.esize

/-- The byte stream owed by the packets ahead of the `End` marker. -/
def pendingStream (file : Nat → Nat) (ps : List HttpPacket) : List Nat :=
  ((ps.takeWhile (fun p => !p.isEnd)).map (packetStream file)).flatten

/-- Pending byte count of one packet. -/
def packetPending (p : HttpPacket) : Nat :=
  p.pfx.length + p.content.length + p.esize

/-- Total bytes pending ahead of the `End` marker. -/
def pendingBytes (ps : List HttpPacket) : Nat :=
  ((ps.takeWhile (fun p => !p.isEnd)).map packetPending).sum

/-- Sum of the content lengths of the queued packets (what `q->count`
tracks). -/
def contentSum (ps : List HttpPacket) : Nat :=
  (ps.map (fun p => p.content.length)).sum

/-- Sum of the live vector entry lengths. -/
def liveVecSum (q : HttpQueue) : Nat :=
  ((List.range q.ioIndex).map (fun i => (q.iovec i).length)).sum

/-! ## Concrete transmissions used by the counterexample theorems -/

/-- A header packet carrying two materialized bytes. -/
def exPacketHeader : HttpPacket := ⟨[], [1, 2], 0, 0, false, true⟩

/-- A file-backed data packet: two prefix (framing) bytes and a two-byte
file extent starting at offset 0. -/
def exPacketFile : HttpPacket := ⟨[3, 4], [], 2, 0, false, false⟩

/-- The terminal `End` marker. -/
def exPacketEnd : HttpPacket := ⟨[], [], 0, 0, true, false⟩

/-- File content oracle: byte `10 + n` at offset `n`. -/
def exFile : Nat → Nat := fun n => 10 + n

/-- A freshly opened transmission queuing header, file packet and `End`,
with an empty vector and no bytes written, under an unlimited body size. -/
def exConn : HttpConn :=
  ⟨⟨0, false, false, false⟩,
    ⟨[exPacketHeader, exPacketFile, exPacketEnd], 2, fun _ => [], 0, 0, false, 0⟩,
    HTTP_UNLIMITED, exFile⟩

/-- A built vector holding two memory entries `[1,2]` and `[3,4]` plus a
five-byte file extent (`ioCount = 9`, `ioFile` set, `ioPos = 0`). -/
def exVecQueue : HttpQueue :=
  ⟨[], 0, fun k => [[1, 2], [3, 4]].getD k [], 2, 9, true, 0⟩

/-- A transmission with a single two-byte content packet, used to exhibit a
partially consumed first vector entry. -/
def c3Conn : HttpConn :=
  ⟨⟨0, false, false, false⟩,
    ⟨[⟨[], [9, 9], 0, 0, false, true⟩, exPacketEnd], 2, fun _ => [], 0, 0, false, 0⟩,
    HTTP_UNLIMITED, fun n => n⟩

/-- A drain-call state that is over the body-size limit before any byte has
been sent: an already-built vector of 5 bytes, `bytesWritten = 0`, and
`txBodySize = 3`. -/
def c4Conn : HttpConn :=
  ⟨⟨0, false, false, false⟩,
    ⟨[⟨[], [1, 2, 3, 4, 5], 0, 0, false, true⟩, exPacketEnd], 5,
      fun k => if k = 0 then [1, 2, 3, 4, 5] else [], 1, 5, false, 0⟩,
    3, fun n => n⟩

/-- A queue whose front packet carries only prefix bytes (no content, no
file extent), followed by the `End` marker. -/
def c5Queue : HttpQueue :=
  ⟨[⟨[7, 8], [], 0, 0, false, false⟩, exPacketEnd], 0, fun _ => [], 0, 0, false, 0⟩

/-- A transmission whose connector is already finalized. -/
def finConn : HttpConn :=
  ⟨⟨6, true, false, false⟩, exConn.q, HTTP_UNLIMITED, exFile⟩

/-- A connection with a built vector awaiting a retry: one live entry of
five bytes, front packet not `End`. -/
def c8Conn : HttpConn :=
  ⟨⟨0, false, false, false⟩,
    ⟨[⟨[], [1, 2, 3, 4, 5], 0, 0, false, true⟩, exPacketEnd], 5,
      fun k => if k = 0 then [1, 2, 3, 4, 5] else [], 1, 5, false, 0⟩,
    HTTP_UNLIMITED, fun n => n⟩

/-! ## Helper lemmas -/

theorem fileSpan_zero (file : Nat → Nat) (pos : Nat) : fileSpan file pos 0 = [] := rfl

theorem fileSpan_succ (file : Nat → Nat) (pos n : Nat) :
    fileSpan file pos (n + 1) = file pos :: fileSpan file (pos + 1) n := by
  have h : (fun k => file (pos + k)) ∘ Nat.succ = fun k => file (pos + 1 + k) := by
    funext k
    show file (pos + (k + 1)) = file (pos + 1 + k)
    congr 1
    omega
  unfold fileSpan
  rw [List.range_succ_eq_map, List.map_cons, List.map_map, h]
  norm_num

theorem fileSpan_length (file : Nat → Nat) (pos n : Nat) :
    (fileSpan file pos n).length = n := by
  simp [fileSpan]

theorem fileSpan_drop (file : Nat → Nat) (d : Nat) :
    ∀ pos n, (fileSpan file pos n).drop d = fileSpan file (pos + d) (n - d) := by
  induction d with
  | zero => intro pos n; simp
  | succ d ih =>
    intro pos n
    cases n with
    | zero => simp [fileSpan]
    | succ n =>
      rw [fileSpan_succ]
      simp only [List.drop_succ_cons, ih (pos + 1) n]
      congr 1 <;> omega

theorem range_map_sum_succ (g : Nat → Nat) (n : Nat) :
    ((List.range (n + 1)).map g).sum
      = g 0 + ((List.range n).map (fun i => g (i + 1))).sum := by
  have h : g ∘ Nat.succ = fun i => g (i + 1) := rfl
  rw [List.range_succ_eq_map, List.map_cons, List.map_map, h, List.sum_cons]

theorem shiftLoop_snd (fuel : Nat) :
    ∀ v j i n, n - i ≤ fuel → (shiftLoop fuel v j i n).2 = if i < n then n else i := by
  induction fuel with
  | zero =>
    intro v j i n h
    have : ¬ i < n := by omega
    simp [shiftLoop, this]
  | succ fuel ih =>
    intro v j i n h
    by_cases hi : i < n
    · rw [shiftLoop, if_pos hi, ih _ _ _ _ (by omega)]
      by_cases hi1 : i + 1 < n
      · simp [hi, hi1]
      · have : i + 1 = n := by omega
        simp [hi, hi1, this]
    · simp [shiftLoop, hi]

theorem adjustLoop_nomem (fuel : Nat) (v : Nat → List Nat) (w cnt : Nat) :
    adjustLoop fuel v 0 0 w cnt = (v, 0, w, cnt, false) := by
  cases fuel <;> simp [adjustLoop]

theorem adjustLoop_shrinkFront (fuel : Nat) (v : Nat → List Nat) (n w cnt : Nat)
    (hn : 0 < n) (hw : w < (v 0).length) :
    adjustLoop (fuel + 1) v n 0 w cnt
      = ((fun k => if k = 0 then (v 0).drop w else v k), n, w, cnt, true) := by
  simp [adjustLoop, hn, hw]

theorem adjustLoop_full (fuel : Nat) (v : Nat → List Nat) (n w cnt : Nat)
    (hn : 0 < n) (hw : (v 0).length ≤ w) :
    adjustLoop (fuel + 1) v n 0 w cnt
      = ((shiftLoop (n + 1) v 1 0 n).1, n - 1, w - (v 0).length,
          cnt - (v 0).length, false) := by
  have hlt : ¬ w < (v 0).length := by omega
  have hsnd : (shiftLoop (n - 0 + 1) v (0 + 1) 0 n).2 = n := by
    rw [shiftLoop_snd _ _ _ _ _ (by omega)]
    simp [hn]
  rw [adjustLoop, if_pos hn, if_neg hlt]
  simp only [hsnd]
  have hrec : adjustLoop fuel (shiftLoop (n - 0 + 1) v (0 + 1) 0 n).1
      (n - 1) (n - 1 + 1) (w - (v 0).length) (cnt - (v 0).length)
      = ((shiftLoop (n - 0 + 1) v (0 + 1) 0 n).1, n - 1, w - (v 0).length,
          cnt - (v 0).length, false) := by
    have : ¬ n - 1 + 1 < n - 1 := by omega
    cases fuel <;> simp [adjustLoop, this]
  rw [hrec]
  norm_num

theorem adjustSendVec_nomem (q : HttpQueue) (w : Nat) (h : q.ioIndex = 0) :
    adjustSendVec q w
      = { q with
          ioIndex := 0, ioCount := 0, ioFile := false,
          ioPos := (if w > 0 ∧ q.ioFile then q.ioPos + w else q.ioPos) } := by
  rw [adjustSendVec, h, adjustLoop_nomem]
  by_cases hw : w > 0 ∧ q.ioFile = true
  · simp [hw.1, hw.2]
  · rcases Decidable.not_and_iff_or_not.mp hw with h1 | h2
    · have hw0 : w = 0 := by omega
      simp [hw0]
    · have : q.ioFile = false := by
        revert h2; cases q.ioFile <;> simp
      simp [this]

theorem adjustSendVec_shrinkFront (q : HttpQueue) (w : Nat)
    (hn : 0 < q.ioIndex) (hw : w < (q.iovec 0).length) :
    adjustSendVec q w
      = { q with iovec := fun k => if k = 0 then (q.iovec 0).drop w else q.iovec k } := by
  have hfuel : q.ioIndex + 1 = q.ioIndex - 1 + 1 + 1 := by omega
  rw [adjustSendVec, hfuel, adjustLoop_shrinkFront _ _ _ _ _ hn hw]
  rfl

theorem adjustSendVec_full (q : HttpQueue) (w : Nat)
    (hn : 0 < q.ioIndex) (hw : (q.iovec 0).length ≤ w) :
    adjustSendVec q w
      = { q with
          iovec := (shiftLoop (q.ioIndex + 1) q.iovec 1 0 q.ioIndex).1,
          ioIndex := 0, ioCount := 0, ioFile := false,
          ioPos := (if 0 < w - (q.iovec 0).length ∧ q.ioFile then
              q.ioPos + (w - (q.iovec 0).length) else q.ioPos) } := by
  have hfuel : q.ioIndex + 1 = q.ioIndex - 1 + 1 + 1 := by omega
  rw [adjustSendVec, hfuel, ← hfuel, adjustLoop_full _ _ _ _ _ hn hw]
  by_cases hc : 0 < w - (q.iovec 0).length ∧ q.ioFile = true
  · simp [hc.1, hc.2]
  · rcases Decidable.not_and_iff_or_not.mp hc with h1 | h2
    · have hw0 : w - (q.iovec 0).length = 0 := by omega
      simp [hw0]
    · have hf : q.ioFile = false := by
        revert h2; cases q.ioFile <;> simp
      simp [hf]

theorem liveVecSum_shrinkFront (q : HttpQueue) (w : Nat)
    (hn : 0 < q.ioIndex) (hw : w < (q.iovec 0).length) :
    liveVecSum (adjustSendVec q w) = liveVecSum q - w := by
  rw [adjustSendVec_shrinkFront q w hn hw]
  obtain ⟨m, hm⟩ : ∃ m, q.ioIndex = m + 1 := ⟨q.ioIndex - 1, by omega⟩
  unfold liveVecSum
  simp [hm, range_map_sum_succ]
  omega


/-! ## Claim C1 -/

/-- Claim C1 states that for every transmission and every sequence of
transport calls reporting positive partial counts (each at most the
requested `vectorByteCount`) summing to the declared total, the bytes
handed to the transport in call order equal the queued prefix + content +
file-range bytes in packet order, with nothing omitted, duplicated, or
reordered.  The code violates this: starting from `exConn` (header bytes
`[1,2]`, framing bytes `[3,4]`, file bytes `[10,11]`, declared total 6),
two transport calls each accepting 3 bytes (3 ≤ 6 requested, then
3 ≤ 3 requested, summing to 6) deliver `[1,2,3,4,11,12]` instead of
`[1,2,3,4,10,11]`: the broken copy loop of `adjustSendVec` attributes the
framing byte `4` left over after the first call to the file, advancing
`q->ioPos` to 1, so file byte `10` is never sent and byte `12` — one past
the declared extent — is sent in its place, while the connector still
finalizes reporting all 6 bytes written. -/
theorem C1_delivery_corrupted :
    (runService exConn [SendResult.wr 3, SendResult.wr 3]).2
      = [Event.transportCall [1, 2, 3, 4] 0 2 6 (SendResult.wr 3),
         Event.transportCall [4] 1 2 3 (SendResult.wr 3),
         Event.finalizeConnector] ∧
    deliveredBytes exFile (runService exConn [SendResult.wr 3, SendResult.wr 3]).2
      = [1, 2, 3, 4, 11, 12] ∧
    pendingStream exFile exConn.q.packets = [1, 2, 3, 4, 10, 11] ∧
    deliveredBytes exFile (runService exConn [SendResult.wr 3, SendResult.wr 3]).2
      ≠ pendingStream exFile exConn.q.packets ∧
    (runService exConn [SendResult.wr 3, SendResult.wr 3]).1.tx.bytesWritten
      = (pendingStream exFile exConn.q.packets).length ∧
    (runService exConn [SendResult.wr 3, SendResult.wr 3]).1.tx.finalizedConnector
      = true := by
  refine ⟨by decide, by decide, by decide, by decide, by decide, by decide⟩

/-! ## Claim C2 -/

/-- Claim C2 states that the vector-compaction step removes a fully
consumed entry by shifting all subsequent entries down one slot and
continuing, applies any leftover beyond the memory entries to
`filePosition` when a file entry is present, and resets the vector only
when every entry is consumed.  The inner loop of `adjustSendVec` as
written (`for (j = i + 1; i < q->ioIndex; ) { iovec[j++] = iovec[i++]; }`)
instead copies the consumed entry upward over its successors, clobbers the
outer index so the walk stops after the first fully consumed entry, and the
function then wipes the vector unconditionally.  On `exVecQueue` (entries
`[1,2]` and `[3,4]` plus a five-byte file extent): with `written = 4`
(exactly the two memory entries — zero file bytes) the code advances
`ioPos` by 2, and with `written = 2` (exactly the first entry) it wipes the
untransmitted entry `[3,4]` and the pending file extent from the vector
(`ioIndex = ioCount = 0`, `ioFile` cleared) instead of shifting `[3,4]`
down and keeping the remainder; the copy loop itself duplicates entry 0
upward rather than shifting entry 1 down. -/
theorem C2_compaction_corrupted :
    (adjustSendVec exVecQueue 4).ioPos = 2 ∧
    (adjustSendVec exVecQueue 2).ioIndex = 0 ∧
    (adjustSendVec exVecQueue 2).ioCount = 0 ∧
    (adjustSendVec exVecQueue 2).ioFile = false ∧
    (shiftLoop 3 exVecQueue.iovec 1 0 2).1 1 = [1, 2] ∧
    (shiftLoop 3 exVecQueue.iovec 1 0 2).1 2 = [1, 2] := by
  refine ⟨by decide, by decide, by decide, by decide, by decide, by decide⟩

/-! ## Claim C3 -/


/-- Claim C3 states that after every successful accounting pass,
`vectorByteCount` (`q->ioCount`) equals the sum of the remaining live
vector entry lengths plus the outstanding file-range bytes of the current
attempt.  This fails on the code: a drain of `c3Conn` in which the
transport accepts 1 of the 2 requested bytes leaves `q->ioCount = 2` while
the single live entry has shrunk to one byte and no file bytes are pending
(`adjustSendVec`'s early-return branch shrinks the entry without
subtracting the written amount from `q->ioCount`). -/
theorem C3_counterexample :
    (httpSendOutgoingService c3Conn (SendResult.wr 1)).1.q.ioCount = 2 ∧
    liveVecSum (httpSendOutgoingService c3Conn (SendResult.wr 1)).1.q = 1 ∧
    (httpSendOutgoingService c3Conn (SendResult.wr 1)).1.q.ioFile = false ∧
    (httpSendOutgoingService c3Conn (SendResult.wr 1)).1.q.ioCount
      ≠ liveVecSum (httpSendOutgoingService c3Conn (SendResult.wr 1)).1.q := by
  refine ⟨by decide, by decide, by decide, by decide⟩

/-- Claim C3 amended: after an accounting pass that consumes the whole
first vector entry (or runs with no memory entries at all), the vector is
reset, so `vectorByteCount = 0` trivially equals the sum of the (now
absent) live entries plus the (now absent) outstanding file bytes; but a
pass that stops inside the first entry leaves `vectorByteCount` unchanged,
exceeding the sum of the remaining live entry lengths plus the outstanding
file bytes by exactly the number of bytes written. -/
theorem C3_amended (q : HttpQueue) (w F : Nat)
    (hinv : q.ioCount = liveVecSum q + F) (_hw : 0 < w) :
    (q.ioIndex = 0 ∨ (q.iovec 0).length ≤ w →
      (adjustSendVec q w).ioCount = 0 ∧ (adjustSendVec q w).ioIndex = 0 ∧
      (adjustSendVec q w).ioFile = false ∧
      (adjustSendVec q w).ioCount = liveVecSum (adjustSendVec q w)) ∧
    (0 < q.ioIndex → w < (q.iovec 0).length →
      (adjustSendVec q w).ioCount
        = liveVecSum (adjustSendVec q w) + F + w) := by
  constructor
  · intro h
    have hreset : (adjustSendVec q w).ioCount = 0 ∧ (adjustSendVec q w).ioIndex = 0 ∧
        (adjustSendVec q w).ioFile = false := by
      rcases h with h0 | hfull
      · rw [adjustSendVec_nomem q w h0]
        exact ⟨rfl, rfl, rfl⟩
      · by_cases hn : 0 < q.ioIndex
        · rw [adjustSendVec_full q w hn hfull]
          exact ⟨rfl, rfl, rfl⟩
        · have h0 : q.ioIndex = 0 := by omega
          rw [adjustSendVec_nomem q w h0]
          exact ⟨rfl, rfl, rfl⟩
    refine ⟨hreset.1, hreset.2.1, hreset.2.2, ?_⟩
    rw [hreset.1]
    unfold liveVecSum
    rw [hreset.2.1]
    simp
  · intro hn hpart
    rw [liveVecSum_shrinkFront q w hn hpart]
    have hioc : (adjustSendVec q w).ioCount = q.ioCount := by
      rw [adjustSendVec_shrinkFront q w hn hpart]
    have hlen : (q.iovec 0).length ≤ liveVecSum q := by
      obtain ⟨m, hm⟩ : ∃ m, q.ioIndex = m + 1 := ⟨q.ioIndex - 1, by omega⟩
      unfold liveVecSum
      rw [hm, range_map_sum_succ]
      omega
    rw [hioc]
    omega

/-- Witness for `C3_amended` at a concrete state: the built vector of
`exVecQueue` (entries `[1,2]`, `[3,4]`, file extent 5, `ioCount = 9`). -/
theorem C3_amended_witness :
    exVecQueue.ioCount = liveVecSum exVecQueue + 5 ∧ (0 < 9) ∧
    ((exVecQueue.ioIndex = 0 ∨ (exVecQueue.iovec 0).length ≤ 9 →
        (adjustSendVec exVecQueue 9).ioCount = 0 ∧
        (adjustSendVec exVecQueue 9).ioIndex = 0 ∧
        (adjustSendVec exVecQueue 9).ioFile = false ∧
        (adjustSendVec exVecQueue 9).ioCount
          = liveVecSum (adjustSendVec exVecQueue 9)) ∧
      (0 < exVecQueue.ioIndex → 9 < (exVecQueue.iovec 0).length →
        (adjustSendVec exVecQueue 9).ioCount
          = liveVecSum (adjustSendVec exVecQueue 9) + 5 + 9)) := by
  exact ⟨by decide, by decide, C3_amended exVecQueue 9 5 (by decide) (by decide)⟩


/-! ## Branch lemmas for the drain engine -/

theorem endCheck_notEnd (c : HttpConn) (evs : List Event)
    (h : ∀ p, c.q.packets.head? = some p → p.isEnd = false) :
    endCheck c evs = (c, evs) := by
  unfold endCheck
  cases hc : c.q.packets with
  | nil => rfl
  | cons p rest =>
    have := h p (by rw [hc]; rfl)
    simp [this]

theorem endCheck_end (c : HttpConn) (evs : List Event) (p : HttpPacket)
    (rest : List HttpPacket) (hc : c.q.packets = p :: rest) (hp : p.isEnd = true) :
    endCheck c evs
      = ({ c with
            tx := { c.tx with finalizedConnector := true },
            q := httpGetPacket c.q },
          evs ++ [Event.finalizeConnector]) := by
  unfold endCheck
  rw [hc]
  simp [hp]

theorem endCheck_events (c : HttpConn) (evs : List Event) :
    ∃ tl, (endCheck c evs).2 = evs ++ tl ∧ ∀ e ∈ tl, e = Event.finalizeConnector := by
  unfold endCheck
  cases hc : c.q.packets with
  | nil => exact ⟨[], by simp⟩
  | cons p rest =>
    by_cases hp : p.isEnd = true
    · exact ⟨[Event.finalizeConnector], by simp [hp]⟩
    · simp only [Bool.not_eq_true] at hp
      exact ⟨[], by simp [hp]⟩

theorem serviceAttempt_wouldblock (c : HttpConn) (e : Nat) (evs : List Event)
    (hwb : e = EAGAIN ∨ e = EWOULDBLOCK) :
    serviceAttempt c (SendResult.er e) evs
      = endCheck
          { attemptConn c with
            tx := { (attemptConn c).tx with writeBlocked := true } }
          (evs ++ [transportEvent (attemptConn c) (SendResult.er e),
            Event.traceError e]) := by
  simp only [serviceAttempt, if_pos hwb]
  congr 1
  simp

theorem serviceAttempt_comms (c : HttpConn) (e : Nat) (evs : List Event)
    (hwb : ¬(e = EAGAIN ∨ e = EWOULDBLOCK))
    (hpeer : e ≠ EPIPE ∧ e ≠ ECONNRESET ∧ e ≠ ECONNABORTED ∧ e ≠ ENOTCONN) :
    serviceAttempt c (SendResult.er e) evs
      = endCheck
          { attemptConn c with
            tx := { (attemptConn c).tx with finalizedConnector := true } }
          (evs ++ [transportEvent (attemptConn c) (SendResult.er e),
            Event.commsError e, Event.finalizeConnector, Event.traceError e]) := by
  simp only [serviceAttempt, if_neg hwb, if_pos hpeer]
  congr 1
  simp

theorem serviceAttempt_peerGone (c : HttpConn) (e : Nat) (evs : List Event)
    (hwb : ¬(e = EAGAIN ∨ e = EWOULDBLOCK))
    (hpeer : ¬(e ≠ EPIPE ∧ e ≠ ECONNRESET ∧ e ≠ ECONNABORTED ∧ e ≠ ENOTCONN)) :
    serviceAttempt c (SendResult.er e) evs
      = endCheck
          { attemptConn c with
            tx := { (attemptConn c).tx with finalizedConnector := true } }
          (evs ++ [transportEvent (attemptConn c) (SendResult.er e),
            Event.disconnect, Event.finalizeConnector, Event.traceError e]) := by
  simp only [serviceAttempt, if_neg hwb, if_neg hpeer]
  congr 1
  simp

theorem serviceAttempt_wr_pos (c : HttpConn) (w : Nat) (evs : List Event)
    (hw : 0 < w) :
    serviceAttempt c (SendResult.wr w) evs
      = endCheck
          { attemptConn c with
            tx := { (attemptConn c).tx with
              bytesWritten := (attemptConn c).tx.bytesWritten + w },
            q := adjustSendVec (freeSendPackets (attemptConn c).q w).1 w }
          (evs ++ [transportEvent (attemptConn c) (SendResult.wr w)]) := by
  simp only [serviceAttempt, if_pos hw]

theorem serviceAttempt_wr_zero (c : HttpConn) (evs : List Event) :
    serviceAttempt c (SendResult.wr 0) evs
      = endCheck (attemptConn c)
          (evs ++ [transportEvent (attemptConn c) (SendResult.wr 0)]) := by
  simp only [serviceAttempt]
  norm_num

theorem serviceAttempt_events (c : HttpConn) (res : SendResult) (evs : List Event) :
    ∃ tl, (serviceAttempt c res evs).2
      = evs ++ transportEvent (attemptConn c) res :: tl := by
  cases res with
  | er e =>
    by_cases hwb : e = EAGAIN ∨ e = EWOULDBLOCK
    · rw [serviceAttempt_wouldblock c e evs hwb]
      obtain ⟨tl, htl, _⟩ := endCheck_events
        { attemptConn c with
          tx := { (attemptConn c).tx with writeBlocked := true } }
        (evs ++ [transportEvent (attemptConn c) (SendResult.er e),
          Event.traceError e])
      refine ⟨Event.traceError e :: tl, ?_⟩
      rw [htl]
      simp
    · by_cases hpeer : e ≠ EPIPE ∧ e ≠ ECONNRESET ∧ e ≠ ECONNABORTED ∧ e ≠ ENOTCONN
      · rw [serviceAttempt_comms c e evs hwb hpeer]
        obtain ⟨tl, htl, _⟩ := endCheck_events
          { attemptConn c with
            tx := { (attemptConn c).tx with finalizedConnector := true } }
          (evs ++ [transportEvent (attemptConn c) (SendResult.er e),
            Event.commsError e, Event.finalizeConnector, Event.traceError e])
        refine ⟨Event.commsError e :: Event.finalizeConnector ::
          Event.traceError e :: tl, ?_⟩
        rw [htl]
        simp
      · rw [serviceAttempt_peerGone c e evs hwb hpeer]
        obtain ⟨tl, htl, _⟩ := endCheck_events
          { attemptConn c with
            tx := { (attemptConn c).tx with finalizedConnector := true } }
          (evs ++ [transportEvent (attemptConn c) (SendResult.er e),
            Event.disconnect, Event.finalizeConnector, Event.traceError e])
        refine ⟨Event.disconnect :: Event.finalizeConnector ::
          Event.traceError e :: tl, ?_⟩
        rw [htl]
        simp
  | wr w =>
    by_cases hw : 0 < w
    · rw [serviceAttempt_wr_pos c w evs hw]
      obtain ⟨tl, htl, _⟩ := endCheck_events
        { attemptConn c with
          tx := { (attemptConn c).tx with
            bytesWritten := (attemptConn c).tx.bytesWritten + w },
          q := adjustSendVec (freeSendPackets (attemptConn c).q w).1 w }
        (evs ++ [transportEvent (attemptConn c) (SendResult.wr w)])
      refine ⟨tl, ?_⟩
      rw [htl]
      simp
    · have hw0 : w = 0 := by omega
      subst hw0
      rw [serviceAttempt_wr_zero c evs]
      obtain ⟨tl, htl, _⟩ := endCheck_events (attemptConn c)
        (evs ++ [transportEvent (attemptConn c) (SendResult.wr 0)])
      refine ⟨tl, ?_⟩
      rw [htl]
      simp

theorem service_finalized (c : HttpConn) (res : SendResult)
    (h : c.tx.finalizedConnector = true) :
    httpSendOutgoingService c res = (c, []) := by
  simp [httpSendOutgoingService, h]

theorem service_normal (c : HttpConn) (res : SendResult)
    (hfin : c.tx.finalizedConnector = false)
    (hnb : c.tx.flagsNoBody = false)
    (hlim : ¬(c.tx.bytesWritten + c.q.ioCount > c.txBodySize ∧
        c.txBodySize < HTTP_UNLIMITED)) :
    httpSendOutgoingService c res = serviceAttempt c res [] := by
  unfold httpSendOutgoingService
  rw [hfin]
  simp only [Bool.false_eq_true, if_false, hnb]
  rw [if_neg hlim]

theorem service_limit_bw0 (c : HttpConn) (res : SendResult)
    (hfin : c.tx.finalizedConnector = false)
    (hnb : c.tx.flagsNoBody = false)
    (hover : c.tx.bytesWritten + c.q.ioCount > c.txBodySize ∧
      c.txBodySize < HTTP_UNLIMITED)
    (hbw : c.tx.bytesWritten = 0) :
    httpSendOutgoingService c res = serviceAttempt c res [Event.limitError] := by
  unfold httpSendOutgoingService
  rw [hfin]
  simp only [Bool.false_eq_true, if_false, hnb]
  rw [if_pos hover, if_neg (by omega : ¬c.tx.bytesWritten ≠ 0)]
  rfl

theorem service_limit_abort (c : HttpConn) (res : SendResult)
    (hfin : c.tx.finalizedConnector = false)
    (hnb : c.tx.flagsNoBody = false)
    (hover : c.tx.bytesWritten + c.q.ioCount > c.txBodySize ∧
      c.txBodySize < HTTP_UNLIMITED)
    (hbw : c.tx.bytesWritten ≠ 0) :
    httpSendOutgoingService c res
      = ({ c with tx := { c.tx with finalizedConnector := true } },
          [Event.limitError, Event.finalizeConnector]) := by
  unfold httpSendOutgoingService
  rw [hfin]
  simp only [Bool.false_eq_true, if_false, hnb]
  rw [if_pos hover, if_pos hbw]
  rfl

/-! ## Claim C4 -/


/-- Claim C4 states that when `bytesWritten + vectorByteCount` exceeds a
finite limit and zero bytes have been sent, a request-too-large condition
is signaled and no transport I/O is attempted in that call.  The code
signals the condition but then falls through to the transport call: on
`c4Conn` (5 requested bytes against a limit of 3, nothing sent yet) the
drain call emits the limit error and still hands the 5 bytes to
`mprSendFileToSocket`. -/
theorem C4_counterexample :
    (httpSendOutgoingService c4Conn (SendResult.wr 0)).2
      = [Event.limitError,
         Event.transportCall [1, 2, 3, 4, 5] 0 0 5 (SendResult.wr 0)] := by
  decide

/-- Claim C4 amended: on a drain call with `bytesWritten + vectorByteCount`
over a finite `bodySizeLimit`, if some bytes were already sent the
transmission is finalized immediately as a forced abort with no transport
I/O in that call; if zero bytes have been sent, the request-too-large
condition is signaled but the drain attempt still proceeds, so transport
I/O is attempted in that same call. -/
theorem C4_amended (c : HttpConn) (res : SendResult)
    (hfin : c.tx.finalizedConnector = false)
    (hnb : c.tx.flagsNoBody = false)
    (hover : c.tx.bytesWritten + c.q.ioCount > c.txBodySize ∧
      c.txBodySize < HTTP_UNLIMITED) :
    (c.tx.bytesWritten ≠ 0 →
      httpSendOutgoingService c res
        = ({ c with tx := { c.tx with finalizedConnector := true } },
            [Event.limitError, Event.finalizeConnector])) ∧
    (c.tx.bytesWritten = 0 →
      Event.limitError ∈ (httpSendOutgoingService c res).2 ∧
      ∃ v p f r, Event.transportCall v p f r res ∈ (httpSendOutgoingService c res).2) := by
  constructor
  · intro hbw
    exact service_limit_abort c res hfin hnb hover hbw
  · intro hbw
    rw [service_limit_bw0 c res hfin hnb hover hbw]
    obtain ⟨tl, htl⟩ := serviceAttempt_events c res [Event.limitError]
    constructor
    · rw [htl]
      simp
    · refine ⟨gatherVec (attemptConn c).q, (attemptConn c).q.ioPos,
        (if (attemptConn c).q.ioFile then
          (attemptConn c).q.ioCount - (gatherVec (attemptConn c).q).length else 0),
        (attemptConn c).q.ioCount, ?_⟩
      rw [htl]
      simp [transportEvent]

/-- Witness for `C4_amended` at the concrete over-limit state `c4Conn`. -/
theorem C4_amended_witness :
    c4Conn.tx.finalizedConnector = false ∧ c4Conn.tx.flagsNoBody = false ∧
    (c4Conn.tx.bytesWritten + c4Conn.q.ioCount > c4Conn.txBodySize ∧
      c4Conn.txBodySize < HTTP_UNLIMITED) ∧
    ((c4Conn.tx.bytesWritten ≠ 0 →
      httpSendOutgoingService c4Conn (SendResult.wr 0)
        = ({ c4Conn with tx := { c4Conn.tx with finalizedConnector := true } },
            [Event.limitError, Event.finalizeConnector])) ∧
    (c4Conn.tx.bytesWritten = 0 →
      Event.limitError ∈ (httpSendOutgoingService c4Conn (SendResult.wr 0)).2 ∧
      ∃ v p f r, Event.transportCall v p f r (SendResult.wr 0)
        ∈ (httpSendOutgoingService c4Conn (SendResult.wr 0)).2)) := by
  refine ⟨rfl, rfl, by decide, C4_amended c4Conn (SendResult.wr 0) rfl rfl (by decide)⟩


/-! ## Structure lemmas for the packet accountant -/

theorem pendingBytes_cons (p : HttpPacket) (rest : List HttpPacket)
    (hp : p.isEnd = false) :
    pendingBytes (p :: rest) = packetPending p + pendingBytes rest := by
  simp [pendingBytes, List.takeWhile_cons, hp]

theorem pendingBytes_cons_end (p : HttpPacket) (rest : List HttpPacket)
    (hp : p.isEnd = true) :
    pendingBytes (p :: rest) = 0 := by
  simp [pendingBytes, List.takeWhile_cons, hp]

theorem pendingStream_cons (file : Nat → Nat) (p : HttpPacket)
    (rest : List HttpPacket) (hp : p.isEnd = false) :
    pendingStream file (p :: rest)
      = packetStream file p ++ pendingStream file rest := by
  simp [pendingStream, List.takeWhile_cons, hp]

theorem pendingStream_cons_end (file : Nat → Nat) (p : HttpPacket)
    (rest : List HttpPacket) (hp : p.isEnd = true) :
    pendingStream file (p :: rest) = [] := by
  simp [pendingStream, List.takeWhile_cons, hp]

theorem contentSum_cons (p : HttpPacket) (rest : List HttpPacket) :
    contentSum (p :: rest) = p.content.length + contentSum rest := by
  simp [contentSum]

theorem freeLoop_spec (file : Nat → Nat) :
    ∀ (ps : List HttpPacket) (count bytes : Nat),
      (∀ p ∈ ps, 0 < p.esize → p.content = []) →
      (∀ p ∈ ps, p.isEnd = false → p.pfx ≠ [] → p.content ≠ [] ∨ 0 < p.esize) →
      bytes ≤ pendingBytes ps →
      count = contentSum ps →
      (freeLoop ps count bytes).2.2 = 0 ∧
      pendingStream file (freeLoop ps count bytes).1
        = (pendingStream file ps).drop bytes ∧
      (freeLoop ps count bytes).2.1 = contentSum (freeLoop ps count bytes).1 := by
  intro ps
  induction ps with
  | nil =>
    intro count bytes hx hpa hb hc
    have hb0 : bytes = 0 := by
      simp [pendingBytes] at hb
      omega
    subst hb0
    exact ⟨rfl, by simp [freeLoop], by simpa [freeLoop, contentSum] using hc⟩
  | cons p rest ih =>
    intro count bytes hx hpa hb hc
    have hxp : 0 < p.esize → p.content = [] :=
      fun h => hx p (List.mem_cons_self p rest) h
    have hx' : ∀ p' ∈ rest, 0 < p'.esize → p'.content = [] :=
      fun p' h => hx p' (List.mem_cons_of_mem p h)
    have hpa' : ∀ p' ∈ rest, p'.isEnd = false → p'.pfx ≠ [] →
        p'.content ≠ [] ∨ 0 < p'.esize :=
      fun p' h => hpa p' (List.mem_cons_of_mem p h)
    by_cases hpe : p.isEnd = true
    · have hb0 : bytes = 0 := by
        rw [pendingBytes_cons_end p rest hpe] at hb
        omega
      subst hb0
      have hred : freeLoop (p :: rest) count 0 = (p :: rest, count, 0) := by
        rw [freeLoop]
        simp [hpe]
      rw [hred]
      exact ⟨rfl, by simp, hc⟩
    · simp only [Bool.not_eq_true] at hpe
      by_cases hb0 : bytes = 0
      · subst hb0
        have hred : freeLoop (p :: rest) count 0 = (p :: rest, count, 0) := by
          rw [freeLoop]
          simp
        rw [hred]
        exact ⟨rfl, by simp, hc⟩
      · have hbne : (bytes == 0) = false := by simpa using hb0
        have hbmem : bytes ≤ packetPending p + pendingBytes rest := by
          rwa [pendingBytes_cons p rest hpe] at hb
        by_cases hes : p.esize ≠ 0
        · -- file-extent branch: by the exclusivity invariant, content is empty
          have hcont : p.content = [] := hxp (by omega)
          have hpp : packetPending p = p.pfx.length + p.esize := by
            simp [packetPending, hcont]
          have hstreamP : packetStream file p
              = p.pfx ++ fileSpan file p.epos p.esize := by
            simp [packetStream, hcont]
          have hlenP : (packetStream file p).length = p.pfx.length + p.esize := by
            simp [hstreamP, fileSpan_length]
          by_cases hrem :
              p.esize - min p.esize (bytes - min p.pfx.length bytes) = 0
          · -- extent fully consumed: the packet is removed and the loop continues
            have hred : freeLoop (p :: rest) count bytes
                = freeLoop rest count
                    (bytes - min p.pfx.length bytes
                      - min p.esize (bytes - min p.pfx.length bytes)) := by
              rw [freeLoop]
              simp [hpe, hbne, hes, hcont, hrem]
            have harg : bytes - min p.pfx.length bytes
                - min p.esize (bytes - min p.pfx.length bytes)
                = bytes - p.pfx.length - p.esize := by omega
            have hb' : bytes - p.pfx.length - p.esize ≤ pendingBytes rest := by
              omega
            have hc' : count = contentSum rest := by
              rw [contentSum_cons] at hc
              simpa [hcont] using hc
            obtain ⟨ih1, ih2, ih3⟩ :=
              ih count (bytes - p.pfx.length - p.esize) hx' hpa' hb' hc'
            rw [hred, harg]
            refine ⟨ih1, ?_, ih3⟩
            rw [ih2, pendingStream_cons file p rest hpe,
              List.drop_append_eq_append_drop,
              List.drop_eq_nil_of_le
                (show (packetStream file p).length ≤ bytes by omega)]
            have hix : bytes - (packetStream file p).length
                = bytes - p.pfx.length - p.esize := by omega
            rw [List.nil_append, hix]
          · -- extent only partially consumed: the packet stays at the front
            have hred : freeLoop (p :: rest) count bytes
                = ({ p with
                      pfx := p.pfx.drop (min p.pfx.length bytes),
                      esize := p.esize
                        - min p.esize (bytes - min p.pfx.length bytes),
                      epos := p.epos
                        + min p.esize (bytes - min p.pfx.length bytes) }
                    :: rest,
                    count,
                    bytes - min p.pfx.length bytes
                      - min p.esize (bytes - min p.pfx.length bytes)) := by
              rw [freeLoop]
              simp [hpe, hbne, hes, hcont, hrem]
            rw [hred]
            refine ⟨by
              show bytes - min p.pfx.length bytes
                - min p.esize (bytes - min p.pfx.length bytes) = 0
              omega, ?_, ?_⟩
            · show pendingStream file (_ :: rest)
                = (pendingStream file (p :: rest)).drop bytes
              rw [pendingStream_cons file _ rest (by simpa using hpe),
                pendingStream_cons file p rest hpe,
                List.drop_append_eq_append_drop]
              have h0 : bytes - (packetStream file p).length = 0 := by omega
              rw [h0, List.drop_zero]
              congr 1
              have hpfxd : List.drop bytes p.pfx
                  = List.drop (min p.pfx.length bytes) p.pfx := by
                rcases Nat.le_total bytes p.pfx.length with h | h
                · congr 1
                  omega
                · rw [List.drop_eq_nil_of_le h,
                    List.drop_eq_nil_of_le (by omega)]
              have hcore : (packetStream file p).drop bytes
                  = p.pfx.drop (min p.pfx.length bytes)
                    ++ fileSpan file
                        (p.epos + min p.esize (bytes - min p.pfx.length bytes))
                        (p.esize
                          - min p.esize (bytes - min p.pfx.length bytes)) := by
                rw [hstreamP, List.drop_append_eq_append_drop, fileSpan_drop,
                  hpfxd]
                congr 2 <;> omega
              rw [hcore]
              simp [packetStream, hcont]
            · show count = contentSum (_ :: rest)
              rw [contentSum_cons]
              rw [contentSum_cons] at hc
              simpa [hcont] using hc
        · -- no file extent
          have hes0 : p.esize = 0 := by omega
          by_cases hcp : p.content.length > 0
          · -- content branch
            have hpp : packetPending p
                = p.pfx.length + p.content.length := by
              simp [packetPending, hes0]
            have hstreamP : packetStream file p = p.pfx ++ p.content := by
              simp [packetStream, hes0, fileSpan_zero]
            have hlenP : (packetStream file p).length
                = p.pfx.length + p.content.length := by
              simp [hstreamP]
            by_cases hrem : p.content.length
                - min p.content.length (bytes - min p.pfx.length bytes) = 0
            · -- content fully consumed: the packet is removed
              have hred : freeLoop (p :: rest) count bytes
                  = freeLoop rest
                      (count
                        - min p.content.length (bytes - min p.pfx.length bytes))
                      (bytes - min p.pfx.length bytes
                        - min p.content.length
                            (bytes - min p.pfx.length bytes)) := by
                rw [freeLoop]
                simp [hpe, hbne, hes0, hcp, hrem]
              have hargb : bytes - min p.pfx.length bytes
                  - min p.content.length (bytes - min p.pfx.length bytes)
                  = bytes - p.pfx.length - p.content.length := by omega
              have hargc : count
                  - min p.content.length (bytes - min p.pfx.length bytes)
                  = count - p.content.length := by omega
              have hb' : bytes - p.pfx.length - p.content.length
                  ≤ pendingBytes rest := by omega
              have hc0 : count = p.content.length + contentSum rest := by
                rw [contentSum_cons] at hc
                exact hc
              have hc' : count - p.content.length = contentSum rest := by omega
              obtain ⟨ih1, ih2, ih3⟩ :=
                ih (count - p.content.length)
                  (bytes - p.pfx.length - p.content.length) hx' hpa' hb' hc'
              rw [hred, hargb, hargc]
              refine ⟨ih1, ?_, ih3⟩
              rw [ih2, pendingStream_cons file p rest hpe,
                List.drop_append_eq_append_drop,
                List.drop_eq_nil_of_le
                  (show (packetStream file p).length ≤ bytes by omega)]
              have hix : bytes - (packetStream file p).length
                  = bytes - p.pfx.length - p.content.length := by omega
              rw [List.nil_append, hix]
            · -- content only partially consumed: the packet stays
              have hred : freeLoop (p :: rest) count bytes
                  = ({ p with
                        pfx := p.pfx.drop (min p.pfx.length bytes),
                        content := p.content.drop
                          (min p.content.length
                            (bytes - min p.pfx.length bytes)) }
                      :: rest,
                      count
                        - min p.content.length (bytes - min p.pfx.length bytes),
                      bytes - min p.pfx.length bytes
                        - min p.content.length
                            (bytes - min p.pfx.length bytes)) := by
                rw [freeLoop]
                simp [hpe, hbne, hes0, hcp, hrem]
              rw [hred]
              have hc0 : count = p.content.length + contentSum rest := by
                rw [contentSum_cons] at hc
                exact hc
              refine ⟨by
                show bytes - min p.pfx.length bytes
                  - min p.content.length (bytes - min p.pfx.length bytes) = 0
                omega, ?_, ?_⟩
              · show pendingStream file (_ :: rest)
                  = (pendingStream file (p :: rest)).drop bytes
                rw [pendingStream_cons file _ rest (by simpa using hpe),
                  pendingStream_cons file p rest hpe,
                  List.drop_append_eq_append_drop]
                have h0 : bytes - (packetStream file p).length = 0 := by omega
                rw [h0, List.drop_zero]
                congr 1
                have hpfxd : List.drop bytes p.pfx
                    = List.drop (min p.pfx.length bytes) p.pfx := by
                  rcases Nat.le_total bytes p.pfx.length with h | h
                  · congr 1
                    omega
                  · rw [List.drop_eq_nil_of_le h,
                      List.drop_eq_nil_of_le (by omega)]
                have hcore : (packetStream file p).drop bytes
                    = p.pfx.drop (min p.pfx.length bytes)
                      ++ p.content.drop
                          (min p.content.length
                            (bytes - min p.pfx.length bytes)) := by
                  rw [hstreamP, List.drop_append_eq_append_drop, hpfxd]
                  congr 1
                  congr 1
                  omega
                rw [hcore]
                simp [packetStream, hes0, fileSpan_zero]
              · show count
                    - min p.content.length (bytes - min p.pfx.length bytes)
                  = contentSum (_ :: rest)
                rw [contentSum_cons]
                simp only [List.length_drop]
                omega
          · -- entirely empty packet (no extent, no content); by the
            -- prefix-accompaniment hypothesis it has no prefix either,
            -- and it is simply consumed
            have hcz : p.content = [] := by
              rcases hcl : p.content with _ | ⟨a, l⟩
              · rfl
              · rw [hcl] at hcp
                simp at hcp
            have hpfx0 : p.pfx = [] := by
              by_contra hne
              rcases hpa p (List.mem_cons_self p rest) hpe hne with h1 | h2
              · exact h1 hcz
              · omega
            have hred : freeLoop (p :: rest) count bytes
                = freeLoop rest count bytes := by
              rw [freeLoop]
              simp [hpe, hbne, hes0, hcz, hpfx0]
            have hb' : bytes ≤ pendingBytes rest := by
              have hpp : packetPending p = 0 := by
                simp [packetPending, hes0, hcz, hpfx0]
              omega
            have hc' : count = contentSum rest := by
              rw [contentSum_cons] at hc
              simpa [hcz] using hc
            obtain ⟨ih1, ih2, ih3⟩ := ih count bytes hx' hpa' hb' hc'
            rw [hred]
            refine ⟨ih1, ?_, ih3⟩
            rw [ih2, pendingStream_cons file p rest hpe]
            have hsp : packetStream file p = [] := by
              simp [packetStream, hes0, hcz, hpfx0, fileSpan_zero]
            rw [hsp, List.nil_append]

theorem freeLoop_end_suffix (endp : HttpPacket) (post : List HttpPacket)
    (hend : endp.isEnd = true) :
    ∀ (ps : List HttpPacket) (count bytes : Nat),
      (endp :: post) <:+ ps →
      (endp :: post) <:+ (freeLoop ps count bytes).1 := by
  intro ps
  induction ps with
  | nil =>
    intro count bytes hsuf
    obtain ⟨t, ht⟩ := hsuf
    exact absurd (List.append_eq_nil.mp ht).2 (by simp)
  | cons p rest ih =>
    intro count bytes hsuf
    by_cases hpe : p.isEnd = true
    · have hred : freeLoop (p :: rest) count bytes
          = (p :: rest, count, bytes) := by
        rw [freeLoop]
        simp [hpe]
      rw [hred]
      exact hsuf
    · simp only [Bool.not_eq_true] at hpe
      have hsuf' : (endp :: post) <:+ rest := by
        obtain ⟨t, ht⟩ := hsuf
        cases t with
        | nil =>
          simp only [List.nil_append, List.cons.injEq] at ht
          rw [← ht.1, hend] at hpe
          cases hpe
        | cons a t' =>
          refine ⟨t', ?_⟩
          have := (List.cons.injEq a (t' ++ endp :: post) p rest).mp ht
          exact this.2
      by_cases hb0 : bytes = 0
      · have hred : freeLoop (p :: rest) count bytes
            = (p :: rest, count, bytes) := by
          rw [freeLoop]
          simp [hb0]
        rw [hred]
        exact hsuf
      · have hbne : (bytes == 0) = false := by simpa using hb0
        rw [freeLoop, if_neg (by simp [hpe, hbne])]
        dsimp only
        repeat' split
        all_goals
          first
            | exact ih _ _ hsuf'
            | exact hsuf'.trans (List.suffix_cons _ _)

/-! ## Claim C5 -/


/-- Claim C5 states that the Accountant removes a Packet from the Queue
front only when that Packet is fully empty (no prefix, no fileRange, no
content).  The code checks only `esize` and the content length: on
`c5Queue`, accounting 1 byte (within the 2 pending bytes) drains one prefix
byte and then removes the front packet even though its prefix still holds
byte 8 — the packet was not fully empty. -/
theorem C5_counterexample :
    pendingBytes c5Queue.packets = 2 ∧
    (freeSendPackets c5Queue 1).1.packets = [exPacketEnd] ∧
    (freeSendPackets c5Queue 1).2 = 0 := by
  refine ⟨by decide, by decide, by decide⟩

/-- Claim C5 amended: provided every non-`End` packet carrying prefix bytes
also carries content or file-extent bytes (so a packet's prefix can never
be the last thing holding data), the Accountant consumes front packets in
queue order — prefix first, then fileRange, else content — absorbing
`bytesCompleted` completely: the remaining pending byte stream is exactly
the original stream with the first `bytesCompleted` bytes dropped, the
materialized counter keeps tracking exactly the queued content bytes, and
the `End` marker (with everything behind it) is never removed. -/
theorem C5_amended (file : Nat → Nat) (q : HttpQueue) (bytes : Nat)
    (hx : ∀ p ∈ q.packets, 0 < p.esize → p.content = [])
    (hpa : ∀ p ∈ q.packets, p.isEnd = false → p.pfx ≠ [] →
      p.content ≠ [] ∨ 0 < p.esize)
    (hb : bytes ≤ pendingBytes q.packets)
    (hc : q.count = contentSum q.packets) :
    (freeSendPackets q bytes).2 = 0 ∧
    pendingStream file (freeSendPackets q bytes).1.packets
      = (pendingStream file q.packets).drop bytes ∧
    (freeSendPackets q bytes).1.count
      = contentSum (freeSendPackets q bytes).1.packets ∧
    (∀ endp post, endp.isEnd = true → (endp :: post) <:+ q.packets →
      (endp :: post) <:+ (freeSendPackets q bytes).1.packets) := by
  obtain ⟨h1, h2, h3⟩ := freeLoop_spec file q.packets q.count bytes hx hpa hb hc
  exact ⟨h1, h2, h3,
    fun endp post hend hsuf =>
      freeLoop_end_suffix endp post hend q.packets q.count bytes hsuf⟩

/-- Witness for `C5_amended` on the concrete queue of `exConn` with 3 of
its 6 pending bytes accounted. -/
theorem C5_amended_witness :
    (3 ≤ pendingBytes exConn.q.packets) ∧
    ((freeSendPackets exConn.q 3).2 = 0 ∧
    pendingStream exFile (freeSendPackets exConn.q 3).1.packets
      = (pendingStream exFile exConn.q.packets).drop 3 ∧
    (freeSendPackets exConn.q 3).1.count
      = contentSum (freeSendPackets exConn.q 3).1.packets ∧
    (∀ endp post, endp.isEnd = true → (endp :: post) <:+ exConn.q.packets →
      (endp :: post) <:+ (freeSendPackets exConn.q 3).1.packets)) := by
  refine ⟨by decide, C5_amended exFile exConn.q 3 (by decide) (by decide)
    (by decide) (by decide)⟩

/-! ## Claim C6 -/

/-- Claim C6: the `End` packet is never consumed by the Accountant — it
(and everything queued behind it) survives every `freeSendPackets` call, so
it remains on the Queue until every preceding packet has been drained away;
on a drain call whose transport result is a positive count, the pipeline
finalizes exactly when the packet left at the front after accounting is the
`End` marker, setting `finalizedConnector` and removing the `End` packet
itself; and once finalized, every further drain call is a no-op (no events,
no state change), so finalize fires exactly once. -/
theorem C6_end_marker :
    (∀ (q : HttpQueue) (bytes : Nat) (endp : HttpPacket)
        (post : List HttpPacket),
      endp.isEnd = true → (endp :: post) <:+ q.packets →
      (endp :: post) <:+ (freeSendPackets q bytes).1.packets) ∧
    (∀ (c : HttpConn) (w : Nat),
      c.tx.finalizedConnector = false → c.tx.flagsNoBody = false →
      ¬(c.tx.bytesWritten + c.q.ioCount > c.txBodySize ∧
        c.txBodySize < HTTP_UNLIMITED) →
      0 < w →
      (Event.finalizeConnector ∈ (httpSendOutgoingService c (SendResult.wr w)).2 ↔
        ∃ p rest,
          (adjustSendVec (freeSendPackets (attemptConn c).q w).1 w).packets
            = p :: rest ∧ p.isEnd = true) ∧
      (∀ p rest,
        (adjustSendVec (freeSendPackets (attemptConn c).q w).1 w).packets
          = p :: rest → p.isEnd = true →
        (httpSendOutgoingService c (SendResult.wr w)).1.tx.finalizedConnector
          = true ∧
        (httpSendOutgoingService c (SendResult.wr w)).1.q.packets
          = rest)) ∧
    (∀ (c : HttpConn) (res : SendResult),
      c.tx.finalizedConnector = true → httpSendOutgoingService c res = (c, [])) := by
  refine ⟨?_, ?_, ?_⟩
  · intro q bytes endp post hend hsuf
    exact freeLoop_end_suffix endp post hend q.packets q.count bytes hsuf
  · intro c w hfin hnb hlim hw
    rw [service_normal c (SendResult.wr w) hfin hnb hlim,
      serviceAttempt_wr_pos c w [] hw]
    cases hq : (adjustSendVec (freeSendPackets (attemptConn c).q w).1 w).packets with
    | nil =>
      rw [endCheck_notEnd _ _ (by
        intro p hp
        simp only [hq] at hp
        cases hp)]
      constructor
      · constructor
        · intro hmem
          simp [transportEvent] at hmem
        · intro ⟨p, rest, heq, _⟩
          exact List.noConfusion heq
      · intro p rest heq
        exact List.noConfusion heq
    | cons p rest =>
      by_cases hp : p.isEnd = true
      · rw [endCheck_end _ _ p rest hq hp]
        refine ⟨⟨fun _ => ⟨p, rest, rfl, hp⟩, fun _ => by simp⟩, ?_⟩
        intro p' rest' heq _
        injection heq with h1 h2
        subst h1
        subst h2
        exact ⟨rfl, by simp [httpGetPacket, hq]⟩
      · simp only [Bool.not_eq_true] at hp
        rw [endCheck_notEnd _ _ (by
          intro p' hp'
          simp only [hq] at hp'
          cases hp'
          exact hp)]
        constructor
        · constructor
          · intro hmem
            simp [transportEvent] at hmem
          · intro ⟨p', rest', heq, hpe'⟩
            injection heq with h1 h2
            subst h1
            rw [hp] at hpe'
            cases hpe'
        · intro p' rest' heq hpe'
          injection heq with h1 h2
          subst h1
          rw [hp] at hpe'
          cases hpe'
  · intro c res h
    exact service_finalized c res h


/-- Witness for `C6_end_marker` at concrete inputs: the `End` marker of
`exConn` survives a 3-byte accounting pass; the first drain call of
`exConn` does not finalize (its front packet after accounting is not
`End`); and a drain call on an already-finalized transmission is a no-op. -/
theorem C6_end_marker_witness :
    ((exPacketEnd :: []) <:+ (freeSendPackets exConn.q 3).1.packets) ∧
    ((Event.finalizeConnector
        ∈ (httpSendOutgoingService exConn (SendResult.wr 3)).2 ↔
      ∃ p rest,
        (adjustSendVec (freeSendPackets (attemptConn exConn).q 3).1 3).packets
          = p :: rest ∧ p.isEnd = true) ∧
      (∀ p rest,
        (adjustSendVec (freeSendPackets (attemptConn exConn).q 3).1 3).packets
          = p :: rest → p.isEnd = true →
        (httpSendOutgoingService exConn (SendResult.wr 3)).1.tx.finalizedConnector
          = true ∧
        (httpSendOutgoingService exConn (SendResult.wr 3)).1.q.packets = rest)) ∧
    (httpSendOutgoingService finConn (SendResult.wr 0) = (finConn, [])) := by
  have h := C6_end_marker
  exact ⟨h.1 exConn.q 3 exPacketEnd [] rfl (by decide),
    h.2.1 exConn 3 rfl rfl (by decide) (by decide),
    h.2.2 finConn (SendResult.wr 0) rfl⟩

/-! ## Vector-builder lemmas and Claim C9 -/

theorem addToSendVector_ioFile (q : HttpQueue) (entry : List Nat) :
    (addToSendVector q entry).ioFile = q.ioFile := rfl

theorem addPacketForSend_ioFile_of_esize_zero (q : HttpQueue) (p : HttpPacket)
    (h : p.esize = 0) :
    (addPacketForSend q p).ioFile = q.ioFile := by
  by_cases hp : p.pfx ≠ [] <;> by_cases hcl : p.content.length > 0 <;>
    simp [addPacketForSend, addToSendVector, h, hp, hcl]

theorem addPacketForSend_ioFile_of_esize_pos (q : HttpQueue) (p : HttpPacket)
    (h : 0 < p.esize) :
    (addPacketForSend q p).ioFile = true := by
  unfold addPacketForSend
  simp [h]

theorem buildLoop_stop (q : HttpQueue) (f : Bool) (ps : List HttpPacket)
    (h : q.ioFile = true) :
    buildLoop q f ps = (q, ps) := by
  cases ps with
  | nil => rfl
  | cons p rest =>
    rw [buildLoop]
    by_cases hpe : p.isEnd = true
    · simp [hpe]
    · simp [hpe, h]

theorem buildLoop_file_decomp :
    ∀ (ps : List HttpPacket) (q : HttpQueue) (f : Bool),
      q.ioFile = false → (buildLoop q f ps).1.ioFile = true →
      ∃ w p, w.ioFile = false ∧ 0 < p.esize ∧
        (buildLoop q f ps).1 = addPacketForSend w p := by
  intro ps
  induction ps with
  | nil =>
    intro q f h0 h1
    rw [show buildLoop q f [] = (q, []) from rfl] at h1
    rw [h0] at h1
    cases h1
  | cons p rest ih =>
    intro q f h0 h1
    rw [buildLoop] at h1 ⊢
    by_cases hpe : p.isEnd = true
    · simp only [hpe, if_true] at h1 ⊢
      rw [h0] at h1
      cases h1
    · simp only [Bool.not_eq_true] at hpe
      simp only [hpe, Bool.false_eq_true, if_false] at h1 ⊢
      by_cases hbrk : q.ioFile = true ∨ ME_MAX_IOVEC - 2 ≤ q.ioIndex
      · rw [if_pos (by simpa using hbrk)] at h1 ⊢
        rw [h0] at h1
        cases h1
      · rw [if_neg (by simpa using hbrk)] at h1 ⊢
        by_cases hcontrib : (¬p.pfx = [] ∨ ¬p.esize = 0) ∨ 0 < p.content.length
        · rw [if_pos (by simpa using hcontrib)] at h1 ⊢
          by_cases hesz : 0 < p.esize
          · have hq1 : (addPacketForSend q p).ioFile = true :=
              addPacketForSend_ioFile_of_esize_pos q p hesz
            rw [buildLoop_stop (addPacketForSend q p) false rest hq1]
            exact ⟨q, p, h0, hesz, rfl⟩
          · have hz : p.esize = 0 := by omega
            have hq1 : (addPacketForSend q p).ioFile = false := by
              rw [addPacketForSend_ioFile_of_esize_zero q p hz, h0]
            exact ih (addPacketForSend q p) false hq1 h1
        · rw [if_neg (by simpa using hcontrib)] at h1 ⊢
          by_cases hf : f = true
          · simp only [hf, if_true] at h1 ⊢
            exact ih q false h0 h1
          · simp only [Bool.not_eq_true] at hf
            simp only [hf, Bool.false_eq_true, if_false] at h1 ⊢
            exact ih q false h0 h1

/-- Claim C9: a build pass never represents more than one file-backed
range, and the file entry is the last contributor.  Concretely: (1) once
`q->ioFile` is set, the scan loop adds nothing more — it leaves the vector
state and the remaining packets untouched, so every memory entry precedes
the file contribution; (2) whenever a build pass ends with `q->ioFile`
set, the final vector state is exactly some file-free state extended by
the contribution of a single file-backed packet; and (3) a file-backed
packet contributes its prefix as a memory entry first, then adds its
extent size to `vectorByteCount` with no memory entry, setting
`hasFileEntry` — its file bytes are the last contribution of the pass. -/
theorem C9_single_file_entry :
    (∀ (q : HttpQueue) (f : Bool) (ps : List HttpPacket),
      q.ioFile = true → buildLoop q f ps = (q, ps)) ∧
    (∀ (ps : List HttpPacket) (q : HttpQueue) (f : Bool),
      q.ioFile = false → (buildLoop q f ps).1.ioFile = true →
      ∃ w p, w.ioFile = false ∧ 0 < p.esize ∧
        (buildLoop q f ps).1 = addPacketForSend w p) ∧
    (∀ (q : HttpQueue) (p : HttpPacket), 0 < p.esize →
      addPacketForSend q p
        = { (if p.pfx ≠ [] then addToSendVector q p.pfx else q) with
            ioFile := true,
            ioCount := (if p.pfx ≠ [] then addToSendVector q p.pfx else q).ioCount
              + p.esize }) := by
  refine ⟨fun q f ps h => buildLoop_stop q f ps h, buildLoop_file_decomp, ?_⟩
  intro q p h
  unfold addPacketForSend
  simp [h]

/-- Witness for `C9_single_file_entry` at concrete inputs: a vector state
with the file flag already set absorbs nothing further; the build pass of
`exConn`'s queue ends file-flagged and decomposes accordingly; and the
file packet of `exConn` contributes prefix entry first, extent last. -/
theorem C9_single_file_entry_witness :
    (buildLoop exVecQueue true [exPacketHeader] = (exVecQueue, [exPacketHeader])) ∧
    (∃ w p, w.ioFile = false ∧ 0 < p.esize ∧
      (buildLoop { exConn.q with ioCount := 0, ioFile := false } true
        exConn.q.packets).1 = addPacketForSend w p) ∧
    (addPacketForSend exConn.q exPacketFile
      = { (if exPacketFile.pfx ≠ [] then
            addToSendVector exConn.q exPacketFile.pfx else exConn.q) with
          ioFile := true,
          ioCount := (if exPacketFile.pfx ≠ [] then
            addToSendVector exConn.q exPacketFile.pfx else exConn.q).ioCount
            + exPacketFile.esize }) := by
  have h := C9_single_file_entry
  refine ⟨h.1 exVecQueue true [exPacketHeader] rfl, ?_, h.2.2 exConn.q exPacketFile (by decide)⟩
  exact h.2.1 exConn.q.packets { exConn.q with ioCount := 0, ioFile := false }
    true rfl (by decide)

/-! ## Claims C7, C8, C10 -/

theorem endCheck_finalized (c : HttpConn) (evs : List Event)
    (h : c.tx.finalizedConnector = true) :
    (endCheck c evs).1.tx.finalizedConnector = true := by
  unfold endCheck
  cases c.q.packets with
  | nil => exact h
  | cons p rest =>
    by_cases hp : p.isEnd = true
    · simp [hp]
    · simp only [Bool.not_eq_true] at hp
      simp [hp, h]

theorem endCheck_writeBlocked (c : HttpConn) (evs : List Event) :
    (endCheck c evs).1.tx.writeBlocked = c.tx.writeBlocked := by
  unfold endCheck
  cases c.q.packets with
  | nil => rfl
  | cons p rest =>
    by_cases hp : p.isEnd = true
    · simp [hp]
    · simp only [Bool.not_eq_true] at hp
      simp [hp]

/-- Claim C7: on a drain call whose transport result is a negative return
with a non-would-block error code, the connector finalizes; for the
peer-gone codes (`EPIPE`, `ECONNRESET`, `ECONNABORTED`, `ENOTCONN`) it
issues a disconnect and never reports a comms-layer error, while any other
code is reported as a comms-layer error; and once finalized no further
drain call performs any action, so no further transport calls occur. -/
theorem C7_transport_errors (c : HttpConn) (e : Nat)
    (hfin : c.tx.finalizedConnector = false)
    (hnb : c.tx.flagsNoBody = false)
    (hreach : ¬(c.tx.bytesWritten + c.q.ioCount > c.txBodySize ∧
      c.txBodySize < HTTP_UNLIMITED ∧ c.tx.bytesWritten ≠ 0))
    (hwb : ¬(e = EAGAIN ∨ e = EWOULDBLOCK)) :
    (httpSendOutgoingService c (SendResult.er e)).1.tx.finalizedConnector = true ∧
    Event.finalizeConnector ∈ (httpSendOutgoingService c (SendResult.er e)).2 ∧
    ((e = EPIPE ∨ e = ECONNRESET ∨ e = ECONNABORTED ∨ e = ENOTCONN) →
      Event.disconnect ∈ (httpSendOutgoingService c (SendResult.er e)).2 ∧
      ∀ x, Event.commsError x ∉ (httpSendOutgoingService c (SendResult.er e)).2) ∧
    (¬(e = EPIPE ∨ e = ECONNRESET ∨ e = ECONNABORTED ∨ e = ENOTCONN) →
      Event.commsError e ∈ (httpSendOutgoingService c (SendResult.er e)).2) ∧
    (∀ res2,
      httpSendOutgoingService (httpSendOutgoingService c (SendResult.er e)).1 res2
        = ((httpSendOutgoingService c (SendResult.er e)).1, [])) := by
  have hserv : ∃ evs0, (evs0 = [] ∨ evs0 = [Event.limitError]) ∧
      httpSendOutgoingService c (SendResult.er e)
        = serviceAttempt c (SendResult.er e) evs0 := by
    by_cases hlim : c.tx.bytesWritten + c.q.ioCount > c.txBodySize ∧
        c.txBodySize < HTTP_UNLIMITED
    · have hbw : c.tx.bytesWritten = 0 := by tauto
      exact ⟨[Event.limitError], Or.inr rfl,
        service_limit_bw0 c (SendResult.er e) hfin hnb hlim hbw⟩
    · exact ⟨[], Or.inl rfl, service_normal c (SendResult.er e) hfin hnb hlim⟩
  obtain ⟨evs0, hevs0, hserv⟩ := hserv
  rw [hserv]
  by_cases hpeer : e ≠ EPIPE ∧ e ≠ ECONNRESET ∧ e ≠ ECONNABORTED ∧ e ≠ ENOTCONN
  · rw [serviceAttempt_comms c e evs0 hwb hpeer]
    obtain ⟨tl, htl, htlf⟩ := endCheck_events
      { attemptConn c with
        tx := { (attemptConn c).tx with finalizedConnector := true } }
      (evs0 ++ [transportEvent (attemptConn c) (SendResult.er e),
        Event.commsError e, Event.finalizeConnector, Event.traceError e])
    have hfin1 : (endCheck
        { attemptConn c with
          tx := { (attemptConn c).tx with finalizedConnector := true } }
        (evs0 ++ [transportEvent (attemptConn c) (SendResult.er e),
          Event.commsError e, Event.finalizeConnector,
          Event.traceError e])).1.tx.finalizedConnector = true :=
      endCheck_finalized _ _ rfl
    refine ⟨hfin1, ?_, ?_, ?_, ?_⟩
    · rw [htl]
      simp
    · intro hp
      exact absurd hp (by tauto)
    · intro _
      rw [htl]
      simp
    · intro res2
      exact service_finalized _ res2 hfin1
  · rw [serviceAttempt_peerGone c e evs0 hwb hpeer]
    obtain ⟨tl, htl, htlf⟩ := endCheck_events
      { attemptConn c with
        tx := { (attemptConn c).tx with finalizedConnector := true } }
      (evs0 ++ [transportEvent (attemptConn c) (SendResult.er e),
        Event.disconnect, Event.finalizeConnector, Event.traceError e])
    have hfin1 : (endCheck
        { attemptConn c with
          tx := { (attemptConn c).tx with finalizedConnector := true } }
        (evs0 ++ [transportEvent (attemptConn c) (SendResult.er e),
          Event.disconnect, Event.finalizeConnector,
          Event.traceError e])).1.tx.finalizedConnector = true :=
      endCheck_finalized _ _ rfl
    refine ⟨hfin1, ?_, ?_, ?_, ?_⟩
    · rw [htl]
      simp
    · intro _
      constructor
      · rw [htl]
        simp
      · intro x
        rw [htl]
        intro hmem
        rcases List.mem_append.mp hmem with h1 | h2
        · rcases hevs0 with h0 | h0 <;> rw [h0] at h1 <;>
            simp [transportEvent] at h1
        · have := htlf _ h2
          cases this
    · intro hp
      exact absurd (by tauto : e = EPIPE ∨ e = ECONNRESET ∨ e = ECONNABORTED ∨
        e = ENOTCONN) hp
    · intro res2
      exact service_finalized _ res2 hfin1

/-- Witness for `C7_transport_errors` at `exConn` with a connection-reset
error code. -/
theorem C7_transport_errors_witness :
    (httpSendOutgoingService exConn (SendResult.er ECONNRESET)).1.tx.finalizedConnector
      = true ∧
    Event.finalizeConnector
      ∈ (httpSendOutgoingService exConn (SendResult.er ECONNRESET)).2 ∧
    ((ECONNRESET = EPIPE ∨ ECONNRESET = ECONNRESET ∨ ECONNRESET = ECONNABORTED ∨
        ECONNRESET = ENOTCONN) →
      Event.disconnect
        ∈ (httpSendOutgoingService exConn (SendResult.er ECONNRESET)).2 ∧
      ∀ x, Event.commsError x
        ∉ (httpSendOutgoingService exConn (SendResult.er ECONNRESET)).2) ∧
    (¬(ECONNRESET = EPIPE ∨ ECONNRESET = ECONNRESET ∨ ECONNRESET = ECONNABORTED ∨
        ECONNRESET = ENOTCONN) →
      Event.commsError ECONNRESET
        ∈ (httpSendOutgoingService exConn (SendResult.er ECONNRESET)).2) ∧
    (∀ res2, httpSendOutgoingService
        (httpSendOutgoingService exConn (SendResult.er ECONNRESET)).1 res2
      = ((httpSendOutgoingService exConn (SendResult.er ECONNRESET)).1, [])) :=
  C7_transport_errors exConn ECONNRESET rfl rfl (by decide) (by decide)

/-- Claim C10: every drain call whose transport result is negative —
including the would-block case — emits the "Connector write error" trace
event carrying the error code (the `httpTrace` call at line 136 sits after
the error branch but inside the `written < 0` block). -/
theorem C10_trace_on_negative (c : HttpConn) (e : Nat)
    (hfin : c.tx.finalizedConnector = false)
    (hnb : c.tx.flagsNoBody = false)
    (hreach : ¬(c.tx.bytesWritten + c.q.ioCount > c.txBodySize ∧
      c.txBodySize < HTTP_UNLIMITED ∧ c.tx.bytesWritten ≠ 0)) :
    Event.traceError e ∈ (httpSendOutgoingService c (SendResult.er e)).2 := by
  have hserv : ∃ evs0, httpSendOutgoingService c (SendResult.er e)
      = serviceAttempt c (SendResult.er e) evs0 := by
    by_cases hlim : c.tx.bytesWritten + c.q.ioCount > c.txBodySize ∧
        c.txBodySize < HTTP_UNLIMITED
    · have hbw : c.tx.bytesWritten = 0 := by tauto
      exact ⟨[Event.limitError],
        service_limit_bw0 c (SendResult.er e) hfin hnb hlim hbw⟩
    · exact ⟨[], service_normal c (SendResult.er e) hfin hnb hlim⟩
  obtain ⟨evs0, hserv⟩ := hserv
  rw [hserv]
  by_cases hwb : e = EAGAIN ∨ e = EWOULDBLOCK
  · rw [serviceAttempt_wouldblock c e evs0 hwb]
    obtain ⟨tl, htl, _⟩ := endCheck_events
      { attemptConn c with
        tx := { (attemptConn c).tx with writeBlocked := true } }
      (evs0 ++ [transportEvent (attemptConn c) (SendResult.er e),
        Event.traceError e])
    rw [htl]
    simp
  · by_cases hpeer : e ≠ EPIPE ∧ e ≠ ECONNRESET ∧ e ≠ ECONNABORTED ∧ e ≠ ENOTCONN
    · rw [serviceAttempt_comms c e evs0 hwb hpeer]
      obtain ⟨tl, htl, _⟩ := endCheck_events
        { attemptConn c with
          tx := { (attemptConn c).tx with finalizedConnector := true } }
        (evs0 ++ [transportEvent (attemptConn c) (SendResult.er e),
          Event.commsError e, Event.finalizeConnector, Event.traceError e])
      rw [htl]
      simp
    · rw [serviceAttempt_peerGone c e evs0 hwb hpeer]
      obtain ⟨tl, htl, _⟩ := endCheck_events
        { attemptConn c with
          tx := { (attemptConn c).tx with finalizedConnector := true } }
        (evs0 ++ [transportEvent (attemptConn c) (SendResult.er e),
          Event.disconnect, Event.finalizeConnector, Event.traceError e])
      rw [htl]
      simp

/-- Witness for `C10_trace_on_negative`: the would-block drain call of
`exConn` still emits the write-error trace event. -/
theorem C10_trace_on_negative_witness :
    Event.traceError EAGAIN
      ∈ (httpSendOutgoingService exConn (SendResult.er EAGAIN)).2 :=
  C10_trace_on_negative exConn EAGAIN rfl rfl (by decide)

theorem attemptConn_writeBlocked (c : HttpConn) :
    (attemptConn c).tx.writeBlocked = false := by
  by_cases h : c.q.ioIndex = 0 <;> simp [attemptConn, h]

theorem attemptConn_no_rebuild (c : HttpConn) (h : c.q.ioIndex ≠ 0) :
    attemptConn c = { c with tx := { c.tx with writeBlocked := false } } := by
  unfold attemptConn
  simp [h]

/-- Claim C8: when the transport returns would-block on a drain call whose
vector is already built (so no rebuild occurs) and whose front packet is
not the `End` marker, zero bytes are accounted: the queue and vector are
exactly as before the call, `bytesWritten` is unchanged, `writeBlocked` is
set, and the transmission is not finalized — a later call resumes with the
same vector.  Moreover `writeBlocked` is reset at the start of every drain
attempt: any drain call whose transport result is a byte count (not an
error) ends with `writeBlocked = false`, even if it was set before. -/
theorem C8_wouldblock_frame (c : HttpConn) (e : Nat)
    (hfin : c.tx.finalizedConnector = false)
    (hnb : c.tx.flagsNoBody = false)
    (hreach : ¬(c.tx.bytesWritten + c.q.ioCount > c.txBodySize ∧
      c.txBodySize < HTTP_UNLIMITED ∧ c.tx.bytesWritten ≠ 0))
    (hvec : c.q.ioIndex ≠ 0)
    (hhead : ∀ p, c.q.packets.head? = some p → p.isEnd = false)
    (hwb : e = EAGAIN ∨ e = EWOULDBLOCK) :
    (httpSendOutgoingService c (SendResult.er e)).1.q = c.q ∧
    (httpSendOutgoingService c (SendResult.er e)).1.tx.bytesWritten
      = c.tx.bytesWritten ∧
    (httpSendOutgoingService c (SendResult.er e)).1.tx.writeBlocked = true ∧
    (httpSendOutgoingService c (SendResult.er e)).1.tx.finalizedConnector
      = false ∧
    (∀ (c2 : HttpConn) (w : Nat),
      c2.tx.finalizedConnector = false → c2.tx.flagsNoBody = false →
      ¬(c2.tx.bytesWritten + c2.q.ioCount > c2.txBodySize ∧
        c2.txBodySize < HTTP_UNLIMITED ∧ c2.tx.bytesWritten ≠ 0) →
      (httpSendOutgoingService c2 (SendResult.wr w)).1.tx.writeBlocked
        = false) := by
  have hserv : ∃ evs0, httpSendOutgoingService c (SendResult.er e)
      = serviceAttempt c (SendResult.er e) evs0 := by
    by_cases hlim : c.tx.bytesWritten + c.q.ioCount > c.txBodySize ∧
        c.txBodySize < HTTP_UNLIMITED
    · have hbw : c.tx.bytesWritten = 0 := by tauto
      exact ⟨[Event.limitError],
        service_limit_bw0 c (SendResult.er e) hfin hnb hlim hbw⟩
    · exact ⟨[], service_normal c (SendResult.er e) hfin hnb hlim⟩
  obtain ⟨evs0, hserv⟩ := hserv
  have hframe : (httpSendOutgoingService c (SendResult.er e)).1
      = { c with tx := { c.tx with writeBlocked := true } } := by
    rw [hserv, serviceAttempt_wouldblock c e evs0 hwb,
      attemptConn_no_rebuild c hvec]
    show (endCheck { c with tx := { c.tx with writeBlocked := true } } _).1 = _
    rw [endCheck_notEnd { c with tx := { c.tx with writeBlocked := true } } _
      (fun p hp => hhead p hp)]
  refine ⟨by rw [hframe], by rw [hframe], by rw [hframe], by rw [hframe]; exact hfin, ?_⟩
  intro c2 w hfin2 hnb2 hreach2
  have hserv2 : ∃ evs0, httpSendOutgoingService c2 (SendResult.wr w)
      = serviceAttempt c2 (SendResult.wr w) evs0 := by
    by_cases hlim : c2.tx.bytesWritten + c2.q.ioCount > c2.txBodySize ∧
        c2.txBodySize < HTTP_UNLIMITED
    · have hbw : c2.tx.bytesWritten = 0 := by tauto
      exact ⟨[Event.limitError],
        service_limit_bw0 c2 (SendResult.wr w) hfin2 hnb2 hlim hbw⟩
    · exact ⟨[], service_normal c2 (SendResult.wr w) hfin2 hnb2 hlim⟩
  obtain ⟨evs02, hserv2⟩ := hserv2
  rw [hserv2]
  by_cases hw : 0 < w
  · rw [serviceAttempt_wr_pos c2 w evs02 hw, endCheck_writeBlocked]
    exact attemptConn_writeBlocked c2
  · have hw0 : w = 0 := by omega
    subst hw0
    rw [serviceAttempt_wr_zero c2 evs02, endCheck_writeBlocked]
    exact attemptConn_writeBlocked c2


/-- Witness for `C8_wouldblock_frame` at `c8Conn` with `EAGAIN`. -/
theorem C8_wouldblock_frame_witness :
    (httpSendOutgoingService c8Conn (SendResult.er EAGAIN)).1.q = c8Conn.q ∧
    (httpSendOutgoingService c8Conn (SendResult.er EAGAIN)).1.tx.bytesWritten
      = c8Conn.tx.bytesWritten ∧
    (httpSendOutgoingService c8Conn (SendResult.er EAGAIN)).1.tx.writeBlocked
      = true ∧
    (httpSendOutgoingService c8Conn (SendResult.er EAGAIN)).1.tx.finalizedConnector
      = false ∧
    (∀ (c2 : HttpConn) (w : Nat),
      c2.tx.finalizedConnector = false → c2.tx.flagsNoBody = false →
      ¬(c2.tx.bytesWritten + c2.q.ioCount > c2.txBodySize ∧
        c2.txBodySize < HTTP_UNLIMITED ∧ c2.tx.bytesWritten ≠ 0) →
      (httpSendOutgoingService c2 (SendResult.wr w)).1.tx.writeBlocked
        = false) :=
  C8_wouldblock_frame c8Conn EAGAIN rfl rfl (by decide) (by decide)
    (by
      intro p hp
      cases hp
      rfl)
    (Or.inl rfl)
